import Mathlib

/-!
Verification of the Takhisis accessory-management system: the inventory
availability derivation and the work-order matching engine.

The repository snapshot contains the React frontend (frontend-v2), the
README with the database schema and API surface, and design documents.
The Flask backend (app.py) is not part of the snapshot, so the backend
core components (Code Normalizer, Availability Deriver, Candidate
Selector, Work Order Lifecycle, Consumption Writer) are modelled from
the specification; frontend-resident logic (work-order detail
resolution, accessory deletion) is embedded from the TypeScript source.
-/

namespace Takhisis

/-- A remark attached to an accessory unit (README schema: table
remarks, columns content and created_at). The spec calls these Events;
they are immutable and kept in chronological order. -/
structure Remark where
  content : String
  createdAt : Nat
deriving Repr, DecidableEq

/-- A physical accessory unit (README schema: table accessories with
id, sku, location; its remark history is the rows of table remarks that
reference it, oldest first). -/
structure Accessory where
  id : Nat
  sku : String
  location : String
  remarks : List Remark
deriving Repr, DecidableEq

/-- Modelled from the spec: the Code Normalizer at the character level.
Stripping outer whitespace, collapsing inner whitespace and then
removing spaces entirely amounts to removing every whitespace
character; comparison is case-insensitive, so every character is
lower-cased. -/
def normalizeChars (l : List Char) : List Char :=
  (l.filter (fun c => !c.isWhitespace)).map Char.toLower

/-- Modelled from the spec: `normalize(code)` of the Code Normalizer
(section 4.1), a pure total function on strings. -/
def normalize (code : String) : String :=
  String.mk (normalizeChars code.data)

/-- The fixed leading text of a consumption marker. -/
def removeTag : List Char := ("remove ").data

/-- The separator between the accessory code and the work-order id. -/
def woSep : List Char := (" - WO#").data

/-- The separator between the work-order id and the timestamp. -/
def dashSep : List Char := (" - ").data

/-- Splits a character list around the first occurrence of the
separator `sep`; returns none when `sep` does not occur. -/
def splitOnceChars (sep : List Char) : List Char → Option (List Char × List Char)
  | [] => none
  | c :: cs =>
    if sep.isPrefixOf (c :: cs) then
      some ([], (c :: cs).drop sep.length)
    else
      (splitOnceChars sep cs).map (fun p => (c :: p.1, p.2))

/-- Modelled from the spec: the consumption-marker parse of the
Availability Deriver (section 4.2). A remark content is a consumption
marker only when it is an unambiguous instance of the canonical pattern
`remove {C} - WO#{id} - {timestamp}` with a non-empty all-digit id; the
parse returns the code segment C, and none on malformed or unrelated
text. -/
def markerCodeChars (l : List Char) : Option (List Char) :=
  if removeTag.isPrefixOf l then
    match splitOnceChars woSep (l.drop removeTag.length) with
    | some (code, tail) =>
      match splitOnceChars dashSep tail with
      | some (idc, _tsc) =>
        if idc ≠ [] ∧ idc.all Char.isDigit then some code else none
      | none => none
    | none => none
  else none

/-- Modelled from the spec: whether a remark content is a consumption
marker for the already-normalized accessory code `ncode` (the pattern
code is compared after normalization). -/
def isMarkerFor (ncode : String) (content : String) : Bool :=
  match markerCodeChars content.data with
  | some code => normalizeChars code == ncode.data
  | none => false

/-- Modelled from the spec: `isAvailable(unitEvents, accessoryCode)` of
the Availability Deriver (section 4.2). Every marker of the canonical
pattern is a consumption marker, so the latest-marker-wins rule
coincides with: available iff no consumption marker for the normalized
code occurs in the history. -/
def isAvailable (unitRemarks : List Remark) (accessoryCode : String) : Bool :=
  let n := normalize accessoryCode
  !(unitRemarks.any (fun r => isMarkerFor n r.content))

/-- The latest consumption marker for the normalized code `ncode` in a
chronologically ordered remark history, when one exists. -/
def latestMarker (unitRemarks : List Remark) (ncode : String) : Option Remark :=
  (unitRemarks.filter (fun r => isMarkerFor ncode r.content)).getLast?

/-- Work-order lifecycle status (README schema: column status of table
work_orders; values pending, completed, cancelled). -/
inductive Status where
  | pending
  | completed
  | cancelled
deriving Repr, DecidableEq

/-- Inventory match outcome (README schema: column match_status of
table work_orders; values matched, new_one). -/
inductive MatchStatus where
  | matched
  | newOne
deriving Repr, DecidableEq

/-- Error taxonomy of the external interface (spec section 7). -/
inductive ApiError where
  | validationError
  | notFound
  | invalidTransition
  | idExhaustion
deriving Repr, DecidableEq

/-- A work order (README schema: table work_orders; the frontend
WorkOrder interface in WorkOrdersPage has the same fields). The field
`location` is the matched inventory location, called matched_location
in the spec; it is null when no inventory matched. -/
structure WorkOrder where
  id : Nat
  sku : String
  accessoryCode : String
  quantity : Int
  status : Status
  matchStatus : MatchStatus
  location : Option String
  customerServiceName : Option String
  remark : Option String
  createdAt : Nat
  completedAt : Option Nat
deriving Repr, DecidableEq

/-- The persistent state of the system: the accessory store and the
work-order store. -/
structure SystemState where
  accessories : List Accessory
  orders : List WorkOrder
deriving Repr, DecidableEq

/-- Modelled from the spec: the deterministic choice of the Candidate
Selector (section 4.3) among the available units — keep the unit whose
location name is smallest in ascending order, keeping the earlier unit
on ties. -/
def pickCloser (acc : Option Accessory) (u : Accessory) : Option Accessory :=
  match acc with
  | none => some u
  | some v => if u.location < v.location then some u else some v

def minByLocation (l : List Accessory) : Option Accessory :=
  l.foldl pickCloser none

/-- Modelled from the spec: `selectCandidate(sku, accessoryCode)` of
the Candidate Selector (section 4.3): filter the units with the exact
SKU to those the Availability Deriver marks available, and pick the one
with the smallest location name; none when no unit qualifies. -/
def selectCandidate (units : List Accessory) (sku accessoryCode : String) :
    Option Accessory :=
  minByLocation
    (units.filter (fun u => u.sku == sku && isAvailable u.remarks accessoryCode))

/-- Modelled from the spec: id assignment of the Work Order Lifecycle
(section 4.4) — draw candidate random ids from a stream, retrying on
collision with an existing work-order id; a bounded number of attempts,
whose exhaustion is a fatal error. -/
def pickId (idStream : List Nat) (orders : List WorkOrder) : Option Nat :=
  idStream.find? (fun i => orders.all (fun o => o.id ≠ i))

/-- Modelled from the spec: CreateWorkOrder (sections 4.4 and 6).
Validation is checked before any state change; the match decision is
made exactly once, at creation; the new order starts pending. The
returned state is unchanged on every failure. -/
def createWorkOrder (st : SystemState) (sku accessoryCode : String)
    (quantity : Int) (csName remark : Option String)
    (idStream : List Nat) (now : Nat) :
    SystemState × Except ApiError WorkOrder :=
  if quantity < 1 || sku == "" || accessoryCode == "" then
    (st, Except.error ApiError.validationError)
  else
    match pickId idStream st.orders with
    | none => (st, Except.error ApiError.idExhaustion)
    | some i =>
      let cand := selectCandidate st.accessories sku accessoryCode
      let wo : WorkOrder :=
        { id := i
          sku := sku
          accessoryCode := accessoryCode
          quantity := quantity
          status := Status.pending
          matchStatus :=
            match cand with
            | some _ => MatchStatus.matched
            | none => MatchStatus.newOne
          location := cand.map (fun u => u.location)
          customerServiceName := csName
          remark := remark
          createdAt := now
          completedAt := none }
      ({ st with orders := st.orders ++ [wo] }, Except.ok wo)

/-- Modelled from the spec: the canonical content written by the
Consumption Writer (section 4.5): `remove {accessoryCode} - WO#{id} -
{timestamp}`, with the original non-normalized requested code. -/
def consumptionContent (accessoryCode : String) (id ts : Nat) : String :=
  "remove " ++ accessoryCode ++ " - WO#" ++ toString id ++ " - " ++ toString ts

/-- Appends the consumption remark to every accessory of the given SKU
stored at the given location (the unit identity is the SKU-location
pair). -/
def markRemoved (units : List Accessory) (sku loc content : String)
    (now : Nat) : List Accessory :=
  units.map (fun u =>
    if u.sku == sku && u.location == loc then
      { u with remarks := u.remarks ++ [⟨content, now⟩] }
    else u)

/-- Replaces the stored work order carrying the id of the updated
order. -/
def setOrder (orders : List WorkOrder) (updated : WorkOrder) : List WorkOrder :=
  orders.map (fun x => if x.id == updated.id then updated else x)

/-- Modelled from the spec: UpdateWorkOrderStatus (sections 4.4, 4.5
and 6). Only a pending order may transition, and only to completed or
cancelled; completion triggers the Consumption Writer iff the order is
matched, atomically with the status flip; every failure leaves the
state unchanged. -/
def updateWorkOrderStatus (st : SystemState) (id : Nat) (target : Status)
    (now : Nat) : SystemState × Except ApiError WorkOrder :=
  match st.orders.find? (fun x => x.id == id) with
  | none => (st, Except.error ApiError.notFound)
  | some o =>
    match o.status, target with
    | Status.pending, Status.completed =>
      let updated := { o with status := Status.completed, completedAt := some now }
      let units :=
        match o.matchStatus, o.location with
        | MatchStatus.matched, some loc =>
          markRemoved st.accessories o.sku loc
            (consumptionContent o.accessoryCode o.id now) now
        | _, _ => st.accessories
      ({ accessories := units, orders := setOrder st.orders updated },
        Except.ok updated)
    | Status.pending, Status.cancelled =>
      let updated := { o with status := Status.cancelled }
      ({ st with orders := setOrder st.orders updated }, Except.ok updated)
    | _, _ => (st, Except.error ApiError.invalidTransition)

/-- The operations that mutate the system state: the two mutating core
operations of spec section 6 plus the accessory-store operations the
core consumes from collaborators (append a remark, relocate a unit,
delete a unit, add a unit). -/
inductive Op where
  | create (sku accessoryCode : String) (quantity : Int)
      (csName remark : Option String) (idStream : List Nat) (now : Nat)
  | updateStatus (id : Nat) (target : Status) (now : Nat)
  | addRemark (uid : Nat) (content : String) (now : Nat)
  | relocate (uid : Nat) (newLoc : String)
  | removeUnit (uid : Nat)
  | addUnit (uid : Nat) (sku loc : String)

/-- One step of the system. The accessory-store operations are
embedded from the README API surface (they do not touch work orders);
`removeUnit` is the DELETE endpoint on accessories, issued by the
frontend handleDelete in AccessoriesPage unconditionally, with no
check of referencing work orders. -/
def applyOp (st : SystemState) : Op → SystemState
  | Op.create sku code qty cs rem idStream now =>
    (createWorkOrder st sku code qty cs rem idStream now).1
  | Op.updateStatus id target now =>
    (updateWorkOrderStatus st id target now).1
  | Op.addRemark uid content now =>
    { st with
      accessories := st.accessories.map (fun u =>
        if u.id == uid then { u with remarks := u.remarks ++ [⟨content, now⟩] }
        else u) }
  | Op.relocate uid newLoc =>
    { st with
      accessories := st.accessories.map (fun u =>
        if u.id == uid then { u with location := newLoc } else u) }
  | Op.removeUnit uid =>
    { st with accessories := st.accessories.filter (fun u => u.id ≠ uid) }
  | Op.addUnit uid sku loc =>
    { st with accessories := st.accessories ++ [⟨uid, sku, loc, []⟩] }

/-- A sequence of operations applied in order. -/
def applyOps (st : SystemState) (ops : List Op) : SystemState :=
  ops.foldl applyOp st

/-- Well-formedness of the work-order store: ids are pairwise distinct,
which id generation with collision retry guarantees. -/
def UniqueIds (st : SystemState) : Prop :=
  st.orders.Pairwise (fun a b => a.id ≠ b.id)

/-- The base SKU of a possibly suffixed SKU variant (the README
SKU auto-handling appends a star and a counter for duplicates). -/
def baseSku (sku : String) : String :=
  String.mk (sku.data.takeWhile (fun c => c ≠ '*'))

/-- Embedded from source (frontend-v2 WorkOrderDetailModal): the detail
view of a matched work order resolves its unit by fetching the SKU
group of the order SKU and scanning it for an accessory whose current
location string equals the stored matched location. -/
def resolveMatchedUnit (units : List Accessory) (wo : WorkOrder) :
    Option Accessory :=
  match wo.location with
  | none => none
  | some loc =>
    (units.filter (fun u => baseSku u.sku == baseSku wo.sku)).find?
      (fun u => u.location == loc)

theorem splitOnceChars_eq (sep : List Char) :
    ∀ (l a b : List Char), splitOnceChars sep l = some (a, b) →
      l = a ++ sep ++ b := by
  intro l
  induction l with
  | nil => intro a b h; simp [splitOnceChars] at h
  | cons c cs ih =>
    intro a b h
    by_cases hp : sep.isPrefixOf (c :: cs)
    · simp only [splitOnceChars, if_pos hp, Option.some.injEq, Prod.mk.injEq] at h
      obtain ⟨ha, hb⟩ := h
      obtain ⟨t, ht⟩ := List.isPrefixOf_iff_prefix.mp hp
      subst ha
      rw [← ht] at hb ⊢
      rw [List.drop_left] at hb
      simp [← hb]
    · simp only [splitOnceChars, if_neg hp, Option.map_eq_some'] at h
      obtain ⟨⟨a0, b0⟩, hrec, hab⟩ := h
      obtain ⟨ha, hb⟩ := Prod.mk.injEq .. ▸ hab
      subst ha; subst hb
      have hcs := ih a0 b0 hrec
      rw [hcs]; rfl

/-- A successful consumption-marker parse decomposes the content into
an unambiguous instance of the canonical pattern. -/
theorem markerCodeChars_eq (l code : List Char)
    (h : markerCodeChars l = some code) :
    ∃ idc tsc : List Char,
      l = removeTag ++ code ++ woSep ++ idc ++ dashSep ++ tsc ∧
      idc ≠ [] ∧ idc.all Char.isDigit = true := by
  unfold markerCodeChars at h
  split at h
  · rename_i hp
    split at h
    · rename_i codeC tail h1
      split at h
      · rename_i idc tsc h2
        split at h
        · rename_i hd
          injection h with hcode
          subst hcode
          refine ⟨idc, tsc, ?_, hd.1, hd.2⟩
          obtain ⟨t, ht⟩ := List.isPrefixOf_iff_prefix.mp hp
          have hrest : l.drop removeTag.length = t := by
            rw [← ht, List.drop_left]
          have e1 := splitOnceChars_eq woSep _ _ _ h1
          have e2 := splitOnceChars_eq dashSep _ _ _ h2
          rw [hrest] at e1
          rw [← ht, e1, e2]
          simp [List.append_assoc]
        · exact absurd h (by simp)
      · exact absurd h (by simp)
    · exact absurd h (by simp)
  · exact absurd h (by simp)

/-- C1: for every unit remark history and accessory code, the unit is
available iff no remark in the history is a consumption marker for the
normalized code (equivalently, since every marker of the canonical
pattern is a consumption marker, iff the latest such marker does not
exist); and whatever the deriver treats as a consumption marker is an
unambiguous instance of the canonical pattern `remove {C} - WO#{id} -
{timestamp}` whose code segment normalizes to the requested code —
malformed or unrelated remark text is never treated as a marker. -/
theorem isAvailable_latest_marker_wins
    (unitRemarks : List Remark) (accessoryCode : String) :
    (isAvailable unitRemarks accessoryCode = true ↔
      latestMarker unitRemarks (normalize accessoryCode) = none) ∧
    (∀ r ∈ unitRemarks,
      isMarkerFor (normalize accessoryCode) r.content = true →
      ∃ code id ts : String,
        r.content = "remove " ++ code ++ " - WO#" ++ id ++ " - " ++ ts ∧
        normalize code = normalize accessoryCode ∧
        id ≠ "" ∧ id.data.all Char.isDigit = true) := by
  constructor
  · rw [isAvailable, latestMarker]
    rw [List.getLast?_eq_none_iff, List.filter_eq_nil_iff]
    simp [List.any_eq_true]
  · intro r _ hm
    rw [isMarkerFor] at hm
    cases hmc : markerCodeChars r.content.data with
    | none => rw [hmc] at hm; exact absurd hm (by simp)
    | some codeC =>
      rw [hmc] at hm
      have hnc : normalizeChars codeC = (normalize accessoryCode).data :=
        eq_of_beq hm
      obtain ⟨idc, tsc, hdec, hne, hdig⟩ := markerCodeChars_eq _ _ hmc
      refine ⟨String.mk codeC, String.mk idc, String.mk tsc, ?_, ?_, ?_, hdig⟩
      · have : r.content = String.mk r.content.data := rfl
        rw [this, hdec]
        rfl
      · show String.mk (normalizeChars codeC) = normalize accessoryCode
        rw [hnc]
      · intro hcon
        exact hne (by
          have : (String.mk idc).data = ("" : String).data := by rw [hcon]
          exact this)

/-- Witness for C1 at a concrete history with one consumption marker
for codeX: the availability test agrees with the latest-marker view and
the marker decomposes into the canonical pattern. -/
theorem isAvailable_latest_marker_wins_spot :
    (isAvailable [⟨"remove codeX - WO#7 - 99", 1⟩] "codeX" = true ↔
      latestMarker [⟨"remove codeX - WO#7 - 99", 1⟩] (normalize "codeX") =
        none) ∧
    (∃ code id ts : String,
      ("remove codeX - WO#7 - 99" : String) =
        "remove " ++ code ++ " - WO#" ++ id ++ " - " ++ ts ∧
      normalize code = normalize "codeX" ∧
      id ≠ "" ∧ id.data.all Char.isDigit = true) := by
  obtain ⟨h1, h2⟩ :=
    isAvailable_latest_marker_wins [⟨"remove codeX - WO#7 - 99", 1⟩] "codeX"
  exact ⟨h1, h2 ⟨"remove codeX - WO#7 - 99", 1⟩ (by simp) (by decide)⟩

/-- C4: appending a remark that is not a consumption marker for the
normalized accessory code never changes the availability of the unit
for that code. -/
theorem append_preserves_availability
    (unitRemarks : List Remark) (accessoryCode : String) (r : Remark)
    (h : isMarkerFor (normalize accessoryCode) r.content = false) :
    isAvailable (unitRemarks ++ [r]) accessoryCode =
      isAvailable unitRemarks accessoryCode := by
  simp [isAvailable, List.any_append, h]

/-- Witness for C4 at a concrete history: the unrelated remark
`restocked shelf` does not flip the availability of codeX. -/
theorem append_preserves_availability_spot :
    isAvailable ([⟨"remove codeX - WO#7 - 99", 1⟩] ++ [⟨"restocked shelf", 2⟩])
        "codeX" =
      isAvailable [⟨"remove codeX - WO#7 - 99", 1⟩] "codeX" :=
  append_preserves_availability [⟨"remove codeX - WO#7 - 99", 1⟩] "codeX"
    ⟨"restocked shelf", 2⟩ (by decide)

/-- C5: the normalizer maps `part A`, `partA` and ` PartA ` to the same
string, the empty string to the empty string, and is invariant under
inserting a space anywhere, so stripping, collapsing and removing
whitespace and lower-casing is all it does. -/
theorem normalize_whitespace_case :
    normalize "part A" = normalize "partA" ∧
    normalize "partA" = normalize " PartA " ∧
    normalize "" = "" ∧
    (∀ s t : String, normalize (s ++ " " ++ t) = normalize (s ++ t)) := by
  refine ⟨by decide, by decide, by decide, ?_⟩
  intro s t
  show String.mk (normalizeChars (s ++ " " ++ t).data) =
    String.mk (normalizeChars (s ++ t).data)
  rw [String.data_append, String.data_append, String.data_append]
  simp [normalizeChars, List.filter_append, List.map_append]

theorem foldl_pickCloser_ne_none (l : List Accessory) :
    ∀ v : Accessory, l.foldl pickCloser (some v) ≠ none := by
  induction l with
  | nil => intro v h; exact absurd h (by simp)
  | cons w t ih =>
    intro v
    rw [List.foldl_cons]
    show (t.foldl pickCloser (pickCloser (some v) w)) ≠ none
    rw [pickCloser]
    by_cases hlt : w.location < v.location
    · rw [if_pos hlt]; exact ih w
    · rw [if_neg hlt]; exact ih v

theorem foldl_pickCloser_some (l : List Accessory) :
    ∀ v u : Accessory, l.foldl pickCloser (some v) = some u →
      (u = v ∨ u ∈ l) ∧ u.location ≤ v.location ∧
        ∀ w ∈ l, u.location ≤ w.location := by
  induction l with
  | nil =>
    intro v u h
    injection h with h
    subst h
    exact ⟨Or.inl rfl, le_refl _, by simp⟩
  | cons w t ih =>
    intro v u h
    rw [List.foldl_cons] at h
    have hstep : pickCloser (some v) w =
        if w.location < v.location then some w else some v := rfl
    by_cases hlt : w.location < v.location
    · rw [hstep, if_pos hlt] at h
      obtain ⟨hmem, hle, hall⟩ := ih w u h
      refine ⟨Or.inr ?_, le_trans hle (le_of_lt hlt), ?_⟩
      · cases hmem with
        | inl he => exact he ▸ List.mem_cons_self w t
        | inr ht => exact List.mem_cons_of_mem w ht
      · intro x hx
        cases List.mem_cons.mp hx with
        | inl he => exact he ▸ hle
        | inr ht => exact hall x ht
    · rw [hstep, if_neg hlt] at h
      obtain ⟨hmem, hle, hall⟩ := ih v u h
      refine ⟨?_, hle, ?_⟩
      · cases hmem with
        | inl he => exact Or.inl he
        | inr ht => exact Or.inr (List.mem_cons_of_mem w ht)
      · intro x hx
        cases List.mem_cons.mp hx with
        | inl he => exact he ▸ le_trans hle (not_lt.mp hlt)
        | inr ht => exact hall x ht

theorem minByLocation_eq_none_iff (l : List Accessory) :
    minByLocation l = none ↔ l = [] := by
  constructor
  · intro h
    cases l with
    | nil => rfl
    | cons w t =>
      exact absurd h (by
        show t.foldl pickCloser (pickCloser none w) ≠ none
        exact foldl_pickCloser_ne_none t w)
  · intro h; subst h; rfl

theorem minByLocation_spec (l : List Accessory) (u : Accessory)
    (h : minByLocation l = some u) :
    u ∈ l ∧ ∀ v ∈ l, u.location ≤ v.location := by
  cases l with
  | nil => exact absurd h (by simp [minByLocation])
  | cons w t =>
    have h2 : t.foldl pickCloser (some w) = some u := h
    obtain ⟨hmem, hle, hall⟩ := foldl_pickCloser_some t w u h2
    refine ⟨?_, ?_⟩
    · cases hmem with
      | inl he => exact he ▸ List.mem_cons_self w t
      | inr ht => exact List.mem_cons_of_mem w ht
    · intro x hx
      cases List.mem_cons.mp hx with
      | inl he => exact he ▸ hle
      | inr ht => exact hall x ht

theorem selectCandidate_eq_none_iff (units : List Accessory)
    (sku accessoryCode : String) :
    selectCandidate units sku accessoryCode = none ↔
      ∀ u ∈ units, u.sku = sku → isAvailable u.remarks accessoryCode = false := by
  rw [selectCandidate, minByLocation_eq_none_iff, List.filter_eq_nil_iff]
  constructor
  · intro h u hu hsku
    have := h u hu
    simp [hsku] at this
    exact this
  · intro h u hu
    by_cases hsku : u.sku = sku
    · simp [hsku, h u hu hsku]
    · simp [hsku]

theorem selectCandidate_spec (units : List Accessory)
    (sku accessoryCode : String) (u : Accessory)
    (h : selectCandidate units sku accessoryCode = some u) :
    u ∈ units ∧ u.sku = sku ∧ isAvailable u.remarks accessoryCode = true ∧
      ∀ v ∈ units, v.sku = sku → isAvailable v.remarks accessoryCode = true →
        u.location ≤ v.location := by
  rw [selectCandidate] at h
  obtain ⟨hmem, hall⟩ := minByLocation_spec _ _ h
  obtain ⟨hu, hpred⟩ := List.mem_filter.mp hmem
  rw [Bool.and_eq_true, beq_iff_eq] at hpred
  refine ⟨hu, hpred.1, hpred.2, ?_⟩
  intro v hv hsku hav
  exact hall v (List.mem_filter.mpr ⟨hv, by simp [hsku, hav]⟩)

/-- C2: the Candidate Selector returns none exactly when no unit of the
SKU is available for the code — and then a created work order is marked
new_one with no matched location — and otherwise returns an available
unit of the SKU whose location name is smallest in ascending order, so
repeated identical requests over unchanged data return the same
unit. -/
theorem selectCandidate_deterministic (units : List Accessory)
    (sku accessoryCode : String) :
    (selectCandidate units sku accessoryCode = none ↔
      ∀ u ∈ units, u.sku = sku →
        isAvailable u.remarks accessoryCode = false) ∧
    (∀ u, selectCandidate units sku accessoryCode = some u →
      u ∈ units ∧ u.sku = sku ∧ isAvailable u.remarks accessoryCode = true ∧
      ∀ v ∈ units, v.sku = sku → isAvailable v.remarks accessoryCode = true →
        u.location ≤ v.location) ∧
    (∀ st qty csName remark idStream now st2 wo,
      st.accessories = units →
      createWorkOrder st sku accessoryCode qty csName remark idStream now =
        (st2, Except.ok wo) →
      selectCandidate units sku accessoryCode = none →
      wo.matchStatus = MatchStatus.newOne ∧ wo.location = none) := by
  refine ⟨selectCandidate_eq_none_iff units sku accessoryCode,
    fun u h => selectCandidate_spec units sku accessoryCode u h, ?_⟩
  intro st qty csName remark idStream now st2 wo hacc hco hnone
  rw [createWorkOrder] at hco
  split at hco
  · exact absurd (congrArg Prod.snd hco).symm (by simp)
  · split at hco
    · exact absurd (congrArg Prod.snd hco).symm (by simp)
    · rename_i i hpick
      have hsnd := congrArg Prod.snd hco
      injection hsnd with hwo
      subst hwo
      constructor
      · simp [hacc, hnone]
      · simp [hacc, hnone]

/-- Witness for C2 at the fixture of spec section 8: SKU ABC-100 with a
unit at A-1 (no remarks) and a unit at A-2 whose history consumed
codeX; the selector picks A-1, and it is minimal among the available
units. -/
theorem selectCandidate_deterministic_spot :
    Accessory.mk 1 "ABC-100" "A-1" [] ∈
        [Accessory.mk 1 "ABC-100" "A-1" [],
         Accessory.mk 2 "ABC-100" "A-2" [⟨"remove codeX - WO#1 - t0", 1⟩]] ∧
      (Accessory.mk 1 "ABC-100" "A-1" []).sku = "ABC-100" ∧
      isAvailable (Accessory.mk 1 "ABC-100" "A-1" []).remarks "codeX" = true ∧
      ∀ v ∈ [Accessory.mk 1 "ABC-100" "A-1" [],
             Accessory.mk 2 "ABC-100" "A-2" [⟨"remove codeX - WO#1 - t0", 1⟩]],
        v.sku = "ABC-100" → isAvailable v.remarks "codeX" = true →
        (Accessory.mk 1 "ABC-100" "A-1" []).location ≤ v.location :=
  (selectCandidate_deterministic
    [Accessory.mk 1 "ABC-100" "A-1" [],
     Accessory.mk 2 "ABC-100" "A-2" [⟨"remove codeX - WO#1 - t0", 1⟩]]
    "ABC-100" "codeX").2.1
    (Accessory.mk 1 "ABC-100" "A-1" []) (by decide)

/-- C8: CreateWorkOrder returns a ValidationError whenever the quantity
is below one or the SKU or accessory code is empty, and then the state
is returned unchanged: no work-order row is persisted and nothing else
changes. -/
theorem createWorkOrder_validation (st : SystemState)
    (sku accessoryCode : String) (quantity : Int)
    (csName remark : Option String) (idStream : List Nat) (now : Nat)
    (h : quantity < 1 ∨ sku = "" ∨ accessoryCode = "") :
    createWorkOrder st sku accessoryCode quantity csName remark idStream now =
      (st, Except.error ApiError.validationError) := by
  rw [createWorkOrder]
  have hcond :
      (decide (quantity < 1) || sku == "" || accessoryCode == "") = true := by
    rcases h with h | h | h <;> simp [h]
  rw [if_pos hcond]

/-- Witness for C8: a request with quantity zero is rejected and the
empty state is unchanged. -/
theorem createWorkOrder_validation_spot :
    createWorkOrder ⟨[], []⟩ "ABC-100" "codeX" 0 none none [123456] 5 =
      (⟨[], []⟩, Except.error ApiError.validationError) :=
  createWorkOrder_validation ⟨[], []⟩ "ABC-100" "codeX" 0 none none [123456] 5
    (Or.inl (by decide))

theorem find?_map_pred {α : Type} (f : α → α) (p : α → Bool)
    (hpf : ∀ x, p (f x) = p x) :
    ∀ l : List α, (l.map f).find? p = (l.find? p).map f := by
  intro l
  induction l with
  | nil => rfl
  | cons a t ih =>
    rw [List.map_cons]
    by_cases hpa : p a = true
    · rw [List.find?_cons_of_pos _ (by rw [hpf]; exact hpa),
        List.find?_cons_of_pos _ hpa]
      rfl
    · rw [List.find?_cons_of_neg _ (by rw [hpf]; exact hpa),
        List.find?_cons_of_neg _ hpa, ih]

theorem setOrder_find? (orders : List WorkOrder) (upd : WorkOrder) (i : Nat)
    (hid : upd.id = i) :
    (setOrder orders upd).find? (fun x => x.id == i) =
      (orders.find? (fun x => x.id == i)).map
        (fun x => if x.id == upd.id then upd else x) := by
  rw [setOrder]
  apply find?_map_pred
  intro x
  by_cases hx : (x.id == upd.id) = true
  · have hxe : x.id = upd.id := by simpa using hx
    simp [hx, hxe, hid]
  · simp [hx]

/-- C3: completing a pending matched work order appends exactly one
remark with content `remove {code} - WO#{id} - {timestamp}` to the
matched unit history, leaves every other unit untouched and sets status
completed and completed_at; issuing completion again on the completed
order returns an InvalidTransition error with the state unchanged, so
no second remark is appended to any unit. -/
theorem complete_appends_once (st : SystemState) (o : WorkOrder)
    (loc : String) (now later : Nat)
    (hfind : st.orders.find? (fun x => x.id == o.id) = some o)
    (hp : o.status = Status.pending)
    (hm : o.matchStatus = MatchStatus.matched)
    (hloc : o.location = some loc) :
    ∃ st2 updated,
      updateWorkOrderStatus st o.id Status.completed now =
        (st2, Except.ok updated) ∧
      updated.status = Status.completed ∧
      updated.completedAt = some now ∧
      updated.id = o.id ∧
      (∀ u ∈ st.accessories, u.sku = o.sku → u.location = loc →
        Accessory.mk u.id u.sku u.location
            (u.remarks ++ [⟨consumptionContent o.accessoryCode o.id now, now⟩]) ∈
          st2.accessories) ∧
      (∀ u ∈ st.accessories, ¬(u.sku = o.sku ∧ u.location = loc) →
        u ∈ st2.accessories) ∧
      updateWorkOrderStatus st2 o.id Status.completed later =
        (st2, Except.error ApiError.invalidTransition) := by
  have hstep : updateWorkOrderStatus st o.id Status.completed now =
      ({ accessories := markRemoved st.accessories o.sku loc
            (consumptionContent o.accessoryCode o.id now) now,
         orders := setOrder st.orders
            { o with status := Status.completed, completedAt := some now } },
        Except.ok
          { o with status := Status.completed, completedAt := some now }) := by
    rw [updateWorkOrderStatus, hfind]
    simp only [hp, hm, hloc]
  refine ⟨_, _, hstep, rfl, rfl, rfl, ?_, ?_, ?_⟩
  · intro u hu hsku hl
    show _ ∈ markRemoved st.accessories o.sku loc
      (consumptionContent o.accessoryCode o.id now) now
    rw [markRemoved]
    have hmm := List.mem_map_of_mem (fun u =>
      if u.sku == o.sku && u.location == loc then
        { u with remarks := u.remarks ++
            [⟨consumptionContent o.accessoryCode o.id now, now⟩] }
      else u) hu
    simpa [hsku, hl] using hmm
  · intro u hu hne
    show u ∈ markRemoved st.accessories o.sku loc
      (consumptionContent o.accessoryCode o.id now) now
    rw [markRemoved]
    have hmm := List.mem_map_of_mem (fun u =>
      if u.sku == o.sku && u.location == loc then
        { u with remarks := u.remarks ++
            [⟨consumptionContent o.accessoryCode o.id now, now⟩] }
      else u) hu
    have hcond : (u.sku == o.sku && u.location == loc) = false := by
      rcases not_and_or.mp hne with h | h <;> simp [h]
    simpa [hcond] using hmm
  · have hfind2 : (setOrder st.orders
        { o with status := Status.completed, completedAt := some now }).find?
          (fun x => x.id == o.id) =
        some { o with status := Status.completed, completedAt := some now } := by
      rw [setOrder_find? st.orders
        { o with status := Status.completed, completedAt := some now }
        o.id rfl, hfind]
      simp
    rw [updateWorkOrderStatus, hfind2]

/-- Witness for C3: completing order 7, matched to the unit at A-1,
succeeds with status completed and completed_at set. -/
theorem complete_appends_once_spot :
    ∃ st2 updated,
      updateWorkOrderStatus
          ⟨[⟨1, "ABC-100", "A-1", []⟩],
           [⟨7, "ABC-100", "codeX", 1, Status.pending, MatchStatus.matched,
             some "A-1", none, none, 10, none⟩]⟩
          7 Status.completed 50 = (st2, Except.ok updated) ∧
      updated.status = Status.completed ∧
      updated.completedAt = some 50 ∧
      updateWorkOrderStatus st2 7 Status.completed 60 =
        (st2, Except.error ApiError.invalidTransition) := by
  obtain ⟨st2, upd, h1, h2, h3, _, _, _, h4⟩ :=
    complete_appends_once
      ⟨[⟨1, "ABC-100", "A-1", []⟩],
       [⟨7, "ABC-100", "codeX", 1, Status.pending, MatchStatus.matched,
         some "A-1", none, none, 10, none⟩]⟩
      ⟨7, "ABC-100", "codeX", 1, Status.pending, MatchStatus.matched,
        some "A-1", none, none, 10, none⟩
      "A-1" 50 60 (by decide) rfl rfl rfl
  exact ⟨st2, upd, h1, h2, h3, h4⟩

/-- Counterexample for C9: a state with a matched pending work order
referencing the unit at A-1, where the exposed accessory-delete
operation nevertheless removes that unit while the work order still
exists. -/
theorem removeUnit_while_referenced_spot :
    (⟨7, "ABC-100", "codeX", 1, Status.pending, MatchStatus.matched,
        some "A-1", none, none, 10, none⟩ : WorkOrder) ∈
      (SystemState.mk [⟨1, "ABC-100", "A-1", []⟩]
        [⟨7, "ABC-100", "codeX", 1, Status.pending, MatchStatus.matched,
          some "A-1", none, none, 10, none⟩]).orders ∧
    resolveMatchedUnit
        (SystemState.mk [⟨1, "ABC-100", "A-1", []⟩]
          [⟨7, "ABC-100", "codeX", 1, Status.pending, MatchStatus.matched,
            some "A-1", none, none, 10, none⟩]).accessories
        ⟨7, "ABC-100", "codeX", 1, Status.pending, MatchStatus.matched,
          some "A-1", none, none, 10, none⟩ =
      some ⟨1, "ABC-100", "A-1", []⟩ ∧
    (applyOp
        (SystemState.mk [⟨1, "ABC-100", "A-1", []⟩]
          [⟨7, "ABC-100", "codeX", 1, Status.pending, MatchStatus.matched,
            some "A-1", none, none, 10, none⟩])
        (Op.removeUnit 1)).accessories = [] ∧
    resolveMatchedUnit
        (applyOp
          (SystemState.mk [⟨1, "ABC-100", "A-1", []⟩]
            [⟨7, "ABC-100", "codeX", 1, Status.pending, MatchStatus.matched,
              some "A-1", none, none, 10, none⟩])
          (Op.removeUnit 1)).accessories
        ⟨7, "ABC-100", "codeX", 1, Status.pending, MatchStatus.matched,
          some "A-1", none, none, 10, none⟩ = none ∧
    (applyOp
        (SystemState.mk [⟨1, "ABC-100", "A-1", []⟩]
          [⟨7, "ABC-100", "codeX", 1, Status.pending, MatchStatus.matched,
            some "A-1", none, none, 10, none⟩])
        (Op.removeUnit 1)).orders =
      [⟨7, "ABC-100", "codeX", 1, Status.pending, MatchStatus.matched,
        some "A-1", none, none, 10, none⟩] := by
  refine ⟨by simp, by decide, by decide, by decide, by decide⟩

/-- C9 amended: the accessory-delete operation performs no work-order
reference check — deleting the unit a matched work order references
always succeeds, removing every unit with the given id while leaving
the work orders untouched. -/
theorem removeUnit_unconditional (st : SystemState) (uid : Nat)
    (o : WorkOrder) (ho : o ∈ st.orders)
    (hm : o.matchStatus = MatchStatus.matched) :
    o ∈ (applyOp st (Op.removeUnit uid)).orders ∧
    ∀ u ∈ (applyOp st (Op.removeUnit uid)).accessories, u.id ≠ uid := by
  constructor
  · simpa [applyOp] using ho
  · intro u hu
    rw [applyOp] at hu
    have := List.of_mem_filter hu
    simpa using this

/-- Witness for the amended C9 at the counterexample state: the
referenced unit disappears, the matched order survives. -/
theorem removeUnit_unconditional_spot :
    (⟨7, "ABC-100", "codeX", 1, Status.pending, MatchStatus.matched,
        some "A-1", none, none, 10, none⟩ : WorkOrder) ∈
      (applyOp
        (SystemState.mk [⟨1, "ABC-100", "A-1", []⟩]
          [⟨7, "ABC-100", "codeX", 1, Status.pending, MatchStatus.matched,
            some "A-1", none, none, 10, none⟩])
        (Op.removeUnit 1)).orders ∧
    ∀ u ∈ (applyOp
        (SystemState.mk [⟨1, "ABC-100", "A-1", []⟩]
          [⟨7, "ABC-100", "codeX", 1, Status.pending, MatchStatus.matched,
            some "A-1", none, none, 10, none⟩])
        (Op.removeUnit 1)).accessories, u.id ≠ 1 :=
  removeUnit_unconditional
    (SystemState.mk [⟨1, "ABC-100", "A-1", []⟩]
      [⟨7, "ABC-100", "codeX", 1, Status.pending, MatchStatus.matched,
        some "A-1", none, none, 10, none⟩])
    1
    ⟨7, "ABC-100", "codeX", 1, Status.pending, MatchStatus.matched,
      some "A-1", none, none, 10, none⟩
    (by simp) rfl

/-- C10: the detail view of a matched work order resolves its unit only
through the stored SKU and matched-location string, scanning the SKU
group for a unit whose current location equals the stored one; when the
referenced unit has been relocated or deleted — no unit of the group
carries that location any more — resolution returns none, while
relocation and deletion never touch the stored work orders, so the
order remains matched yet its inventory can no longer be displayed. -/
theorem resolveMatchedUnit_location_scan (units : List Accessory)
    (wo : WorkOrder) (loc : String) (hloc : wo.location = some loc)
    (hgone : ∀ u ∈ units, baseSku u.sku = baseSku wo.sku →
      u.location ≠ loc) :
    resolveMatchedUnit units wo = none ∧
    (∀ st uid newLoc, (applyOp st (Op.relocate uid newLoc)).orders = st.orders) ∧
    (∀ st uid, (applyOp st (Op.removeUnit uid)).orders = st.orders) := by
  refine ⟨?_, fun st uid newLoc => rfl, fun st uid => rfl⟩
  simp only [resolveMatchedUnit, hloc]
  apply List.find?_eq_none.mpr
  intro u hu
  obtain ⟨hu2, hbs⟩ := List.mem_filter.mp hu
  have hb : baseSku u.sku = baseSku wo.sku := by simpa using hbs
  simp [hgone u hu2 hb]

/-- Witness for C10: order 7 is matched to A-1, but its unit now sits
at B-9, so resolution fails while the order is untouched. -/
theorem resolveMatchedUnit_location_scan_spot :
    resolveMatchedUnit [⟨1, "ABC-100", "B-9", []⟩]
        ⟨7, "ABC-100", "codeX", 1, Status.pending, MatchStatus.matched,
          some "A-1", none, none, 10, none⟩ = none ∧
    (∀ st uid newLoc, (applyOp st (Op.relocate uid newLoc)).orders = st.orders) ∧
    (∀ st uid, (applyOp st (Op.removeUnit uid)).orders = st.orders) :=
  resolveMatchedUnit_location_scan [⟨1, "ABC-100", "B-9", []⟩]
    ⟨7, "ABC-100", "codeX", 1, Status.pending, MatchStatus.matched,
      some "A-1", none, none, 10, none⟩
    "A-1" rfl (by decide)

theorem id_inj_of_pairwise (l : List WorkOrder)
    (hpw : l.Pairwise (fun a b => a.id ≠ b.id)) :
    ∀ a ∈ l, ∀ b ∈ l, a.id = b.id → a = b := by
  induction hpw with
  | nil => intro a ha; exact absurd ha (by simp)
  | cons hhead _ ih =>
    rename_i x t
    intro a ha b hb heq
    cases List.mem_cons.mp ha with
    | inl hax =>
      cases List.mem_cons.mp hb with
      | inl hbx => rw [hax, hbx]
      | inr hbt =>
        rw [hax] at heq
        exact absurd heq (hhead b hbt)
    | inr hat =>
      cases List.mem_cons.mp hb with
      | inl hbx =>
        rw [hbx] at heq
        exact absurd heq.symm (hhead a hat)
      | inr hbt => exact ih a hat b hbt heq

theorem find?_eq_of_unique (l : List WorkOrder)
    (hpw : l.Pairwise (fun a b => a.id ≠ b.id))
    (o : WorkOrder) (ho : o ∈ l) :
    l.find? (fun x => x.id == o.id) = some o := by
  cases hf : l.find? (fun x => x.id == o.id) with
  | none =>
    have := List.find?_eq_none.mp hf o ho
    simp at this
  | some x =>
    have hpx := List.find?_some hf
    have hmem := List.mem_of_find?_eq_some hf
    have hxo : x = o :=
      id_inj_of_pairwise l hpw x hmem o ho (by simpa using hpx)
    rw [hxo]

theorem setOrder_preserves_id (upd x : WorkOrder) :
    (if x.id == upd.id then upd else x).id = x.id := by
  by_cases hx : (x.id == upd.id) = true
  · have hx2 : x.id = upd.id := by simpa using hx
    simp [hx, hx2]
  · simp [hx]

theorem pairwise_ids_setOrder (orders : List WorkOrder) (upd : WorkOrder)
    (hpw : orders.Pairwise (fun a b => a.id ≠ b.id)) :
    (setOrder orders upd).Pairwise (fun a b => a.id ≠ b.id) := by
  rw [setOrder, List.pairwise_map]
  exact hpw.imp (fun hab => by
    rw [setOrder_preserves_id, setOrder_preserves_id]; exact hab)

theorem mem_setOrder_of_ne (orders : List WorkOrder) (upd o : WorkOrder)
    (ho : o ∈ orders) (hne : o.id ≠ upd.id) : o ∈ setOrder orders upd := by
  rw [setOrder]
  have hmm := List.mem_map_of_mem
    (fun x => if x.id == upd.id then upd else x) ho
  simpa [hne] using hmm

theorem uniqueIds_applyOp (st : SystemState) (op : Op) (h : UniqueIds st) :
    UniqueIds (applyOp st op) := by
  cases op with
  | create sku code qty cs rem idStream now =>
    show UniqueIds (createWorkOrder st sku code qty cs rem idStream now).1
    rw [createWorkOrder]
    split
    · exact h
    · split
      · exact h
      · rename_i i hpick
        show (st.orders ++ [_]).Pairwise
          (fun a b : WorkOrder => a.id ≠ b.id)
        rw [List.pairwise_append]
        refine ⟨h, List.pairwise_singleton _ _, ?_⟩
        intro a ha b hb
        have hb2 := List.mem_singleton.mp hb
        subst hb2
        show a.id ≠ i
        have hall := List.find?_some hpick
        simp only [List.all_eq_true, decide_eq_true_eq] at hall
        exact hall a ha
  | updateStatus i target now =>
    show UniqueIds (updateWorkOrderStatus st i target now).1
    rw [updateWorkOrderStatus]
    split
    · exact h
    · split
      · exact pairwise_ids_setOrder _ _ h
      · exact pairwise_ids_setOrder _ _ h
      · exact h
  | addRemark uid content now => exact h
  | relocate uid newLoc => exact h
  | removeUnit uid => exact h
  | addUnit uid sku loc => exact h

theorem terminal_mem_applyOp (st : SystemState) (op : Op) (o : WorkOrder)
    (h : UniqueIds st) (ho : o ∈ st.orders)
    (hterm : o.status = Status.completed ∨ o.status = Status.cancelled) :
    o ∈ (applyOp st op).orders := by
  cases op with
  | create sku code qty cs rem idStream now =>
    show o ∈ (createWorkOrder st sku code qty cs rem idStream now).1.orders
    rw [createWorkOrder]
    split
    · exact ho
    · split
      · exact ho
      · exact List.mem_append_left _ ho
  | updateStatus i target now =>
    show o ∈ (updateWorkOrderStatus st i target now).1.orders
    rw [updateWorkOrderStatus]
    split
    · exact ho
    · rename_i of hf
      split
      · rename_i hpend
        apply mem_setOrder_of_ne _ _ _ ho
        intro hid
        have hof := List.mem_of_find?_eq_some hf
        have hoof : o = of :=
          id_inj_of_pairwise st.orders h o ho of hof (by simpa using hid)
        rw [hoof] at hterm
        rcases hterm with ht | ht <;> rw [hpend] at ht <;>
          exact absurd ht (by simp)
      · rename_i hpend
        apply mem_setOrder_of_ne _ _ _ ho
        intro hid
        have hof := List.mem_of_find?_eq_some hf
        have hoof : o = of :=
          id_inj_of_pairwise st.orders h o ho of hof (by simpa using hid)
        rw [hoof] at hterm
        rcases hterm with ht | ht <;> rw [hpend] at ht <;>
          exact absurd ht (by simp)
      · exact ho
  | addRemark uid content now => exact ho
  | relocate uid newLoc => exact ho
  | removeUnit uid => exact ho
  | addUnit uid sku loc => exact ho

theorem terminal_persists (ops : List Op) :
    ∀ (st : SystemState) (o : WorkOrder), UniqueIds st → o ∈ st.orders →
      (o.status = Status.completed ∨ o.status = Status.cancelled) →
      o ∈ (applyOps st ops).orders := by
  induction ops with
  | nil => intro st o _ ho _; exact ho
  | cons op rest ih =>
    intro st o hu ho hterm
    show o ∈ (applyOps (applyOp st op) rest).orders
    exact ih (applyOp st op) o (uniqueIds_applyOp st op hu)
      (terminal_mem_applyOp st op o hu ho hterm) hterm

/-- C6: pending is the only initial status (every successfully created
work order starts pending); completed and cancelled are terminal: a
status-update attempt on a terminal order fails with InvalidTransition
and changes nothing, and no reachable sequence of operations ever
removes or alters a terminal work order — it survives every operation
unchanged. -/
theorem status_machine_monotone (st : SystemState) (ops : List Op)
    (o : WorkOrder) (hu : UniqueIds st) (ho : o ∈ st.orders)
    (hterm : o.status = Status.completed ∨ o.status = Status.cancelled) :
    o ∈ (applyOps st ops).orders ∧
    (∀ target now, updateWorkOrderStatus st o.id target now =
      (st, Except.error ApiError.invalidTransition)) ∧
    (∀ sku code qty csName remark idStream now st2 wo,
      createWorkOrder st sku code qty csName remark idStream now =
        (st2, Except.ok wo) →
      wo.status = Status.pending) := by
  refine ⟨terminal_persists ops st o hu ho hterm, ?_, ?_⟩
  · intro target now
    have hf := find?_eq_of_unique st.orders hu o ho
    rw [updateWorkOrderStatus, hf]
    rcases hterm with ht | ht <;> simp only [ht]
  · intro sku code qty csName remark idStream now st2 wo hco
    rw [createWorkOrder] at hco
    split at hco
    · exact absurd (congrArg Prod.snd hco).symm (by simp)
    · split at hco
      · exact absurd (congrArg Prod.snd hco).symm (by simp)
      · have hsnd := congrArg Prod.snd hco
        injection hsnd with hwo
        subst hwo
        rfl

/-- Witness for C6: a completed order survives an update attempt, which
returns InvalidTransition and leaves the state unchanged. -/
theorem status_machine_monotone_spot :
    (⟨7, "ABC-100", "codeX", 1, Status.completed, MatchStatus.matched,
        some "A-1", none, none, 10, some 40⟩ : WorkOrder) ∈
      (applyOps
        ⟨[], [⟨7, "ABC-100", "codeX", 1, Status.completed,
          MatchStatus.matched, some "A-1", none, none, 10, some 40⟩]⟩
        [Op.updateStatus 7 Status.cancelled 60]).orders ∧
    updateWorkOrderStatus
        ⟨[], [⟨7, "ABC-100", "codeX", 1, Status.completed,
          MatchStatus.matched, some "A-1", none, none, 10, some 40⟩]⟩
        7 Status.cancelled 60 =
      (⟨[], [⟨7, "ABC-100", "codeX", 1, Status.completed,
          MatchStatus.matched, some "A-1", none, none, 10, some 40⟩]⟩,
        Except.error ApiError.invalidTransition) := by
  obtain ⟨h1, h2, _⟩ := status_machine_monotone
    ⟨[], [⟨7, "ABC-100", "codeX", 1, Status.completed,
      MatchStatus.matched, some "A-1", none, none, 10, some 40⟩]⟩
    [Op.updateStatus 7 Status.cancelled 60]
    ⟨7, "ABC-100", "codeX", 1, Status.completed, MatchStatus.matched,
      some "A-1", none, none, 10, some 40⟩
    (by simp [UniqueIds]) (by simp) (Or.inl rfl)
  exact ⟨h1, h2 Status.cancelled 60⟩

theorem inv_applyOp (st : SystemState) (op : Op)
    (hinv : ∀ o ∈ st.orders,
      (o.matchStatus = MatchStatus.matched ↔ o.location ≠ none)) :
    ∀ o ∈ (applyOp st op).orders,
      (o.matchStatus = MatchStatus.matched ↔ o.location ≠ none) := by
  cases op with
  | create sku code qty cs rem idStream now =>
    intro o hoM
    have hoM2 : o ∈
        (createWorkOrder st sku code qty cs rem idStream now).1.orders := hoM
    rw [createWorkOrder] at hoM2
    split at hoM2
    · exact hinv o hoM2
    · split at hoM2
      · exact hinv o hoM2
      · rcases List.mem_append.mp hoM2 with hold | hnew
        · exact hinv o hold
        · have ho2 := List.mem_singleton.mp hnew
          subst ho2
          cases hc : selectCandidate st.accessories sku code with
          | some u => simp [hc]
          | none => simp [hc]
  | updateStatus i target now =>
    intro o hoM
    have hoM2 : o ∈ (updateWorkOrderStatus st i target now).1.orders := hoM
    rw [updateWorkOrderStatus] at hoM2
    split at hoM2
    · exact hinv o hoM2
    · rename_i of hf
      split at hoM2
      · simp only [setOrder] at hoM2
        obtain ⟨x, hx, hfx⟩ := List.mem_map.mp hoM2
        have hofmem := List.mem_of_find?_eq_some hf
        split at hfx
        · subst hfx
          simpa using hinv of hofmem
        · subst hfx
          exact hinv x hx
      · simp only [setOrder] at hoM2
        obtain ⟨x, hx, hfx⟩ := List.mem_map.mp hoM2
        have hofmem := List.mem_of_find?_eq_some hf
        split at hfx
        · subst hfx
          simpa using hinv of hofmem
        · subst hfx
          exact hinv x hx
      · exact hinv o hoM2
  | addRemark uid content now => exact hinv
  | relocate uid newLoc => exact hinv
  | removeUnit uid => exact hinv
  | addUnit uid sku loc => exact hinv

theorem inv_persists (ops : List Op) :
    ∀ st : SystemState,
      (∀ o ∈ st.orders,
        (o.matchStatus = MatchStatus.matched ↔ o.location ≠ none)) →
      ∀ o ∈ (applyOps st ops).orders,
        (o.matchStatus = MatchStatus.matched ↔ o.location ≠ none) := by
  induction ops with
  | nil => intro st hinv; exact hinv
  | cons op rest ih =>
    intro st hinv
    show ∀ o ∈ (applyOps (applyOp st op) rest).orders, _
    exact ih (applyOp st op) (inv_applyOp st op hinv)

/-- C7: every reachable work order carries a matched location exactly
when its match status is matched — the invariant is preserved by every
operation, since the match decision is made once at creation and never
recomputed — and a work order created matched recorded the location of
a unit of the requested SKU that the Availability Deriver judged
available at decision time. -/
theorem matched_location_invariant (st : SystemState) (ops : List Op)
    (hinv : ∀ o ∈ st.orders,
      (o.matchStatus = MatchStatus.matched ↔ o.location ≠ none)) :
    (∀ o ∈ (applyOps st ops).orders,
      (o.matchStatus = MatchStatus.matched ↔ o.location ≠ none)) ∧
    (∀ sku code qty csName remark idStream now st2 wo,
      createWorkOrder st sku code qty csName remark idStream now =
        (st2, Except.ok wo) →
      wo.matchStatus = MatchStatus.matched →
      ∃ u, u ∈ st.accessories ∧ u.sku = sku ∧
        isAvailable u.remarks code = true ∧
        wo.location = some u.location) := by
  refine ⟨inv_persists ops st hinv, ?_⟩
  intro sku code qty csName remark idStream now st2 wo hco hmatched
  rw [createWorkOrder] at hco
  split at hco
  · exact absurd (congrArg Prod.snd hco).symm (by simp)
  · split at hco
    · exact absurd (congrArg Prod.snd hco).symm (by simp)
    · have hsnd := congrArg Prod.snd hco
      injection hsnd with hwo
      subst hwo
      cases hc : selectCandidate st.accessories sku code with
      | none =>
        rw [show (selectCandidate st.accessories sku code) = none from hc]
          at hmatched
        exact absurd hmatched (by simp [hc])
      | some u =>
        obtain ⟨hu, hsku, hav, _⟩ :=
          selectCandidate_spec st.accessories sku code u hc
        exact ⟨u, hu, hsku, hav, by simp [hc]⟩

/-- Witness for C7: from a state with one empty-history unit and no
orders, creating a work order yields a store whose single order — the
matched order for codeX at A-1 — satisfies the invariant. -/
theorem matched_location_invariant_spot :
    ((⟨7, "ABC-100", "codeX", 1, Status.pending, MatchStatus.matched,
        some "A-1", none, none, 20, none⟩ : WorkOrder).matchStatus =
        MatchStatus.matched ↔
      (⟨7, "ABC-100", "codeX", 1, Status.pending, MatchStatus.matched,
        some "A-1", none, none, 20, none⟩ : WorkOrder).location ≠ none) :=
  (matched_location_invariant ⟨[⟨1, "ABC-100", "A-1", []⟩], []⟩
    [Op.create "ABC-100" "codeX" 1 none none [7] 20] (by simp)).1
    ⟨7, "ABC-100", "codeX", 1, Status.pending, MatchStatus.matched,
      some "A-1", none, none, 20, none⟩ (by decide)

end Takhisis
